import Mathlib

/-!
Verification development for a TCP proof-of-work (hashcash) service.

The embedding models the Go sources:
* `internal/pow` (authoritative variant: mutex-protected plain map):
  `SHA256HashcashService` with `GenerateChallenge`, `VerifyProof`,
  `InvalidateChallenge`, `SolveChallenge`, `hasLeadingZeros`;
* `pkg/protocol`: length-prefixed message framing (`WriteMessage`, `ReadMessage`);
* `internal/server`: the per-connection handler `handleConnection`.

Go strings are byte sequences, modelled as `List Nat`; Go `time.Time` /
`time.Duration` values are modelled as `Int` instants and durations, the
current time being an explicit parameter; `context.Context` cancellation is
modelled as fuel counting the loop iterations before the signal fires.
Go `int` difficulty is modelled as `Nat` (all claims quantify over d ≥ 0).
-/

namespace Pow

/-- A Go string viewed as its byte sequence. -/
abbrev Str := List Nat

/-- Decidable equality for `Except` results, so concrete runs can be settled
by `decide`. -/
instance {ε α : Type} [DecidableEq ε] [DecidableEq α] : DecidableEq (Except ε α) :=
  fun a b =>
    match a, b with
    | Except.error x, Except.error y =>
      if h : x = y then Decidable.isTrue (by rw [h])
      else Decidable.isFalse (by intro hc; cases hc; exact h rfl)
    | Except.error _, Except.ok _ => Decidable.isFalse (by intro hc; cases hc)
    | Except.ok _, Except.error _ => Decidable.isFalse (by intro hc; cases hc)
    | Except.ok x, Except.ok y =>
      if h : x = y then Decidable.isTrue (by rw [h])
      else Decidable.isFalse (by intro hc; cases hc; exact h rfl)

/-! ## Decimal and hex encodings (strconv.Itoa, fmt %d, hex.EncodeToString) -/

/-- Digit-producing loop of the decimal rendering, structurally recursive on
a fuel bound (any fuel `> log10 n` yields the full digit string). -/
def natDecGo : Nat → Nat → Str
  | 0, _ => []
  | fuel + 1, n =>
    if n < 10 then [48 + n]
    else natDecGo fuel (n / 10) ++ [48 + n % 10]

/-- ASCII decimal digits of a natural number, as `strconv.Itoa` produces for
non-negative input. -/
def natDecBytes (n : Nat) : Str := natDecGo (n + 1) n

/-- ASCII decimal rendering of an integer, as `fmt.Sprintf "%d"` produces. -/
def intToDecBytes (i : Int) : Str :=
  if i < 0 then 45 :: natDecBytes i.natAbs else natDecBytes i.toNat

/-- One lowercase hexadecimal digit byte, as `encoding/hex` uses. -/
def hexDigit (n : Nat) : Nat :=
  if n < 10 then 48 + n else 87 + n

/-- Lowercase hex encoding of a byte sequence (`hex.EncodeToString`). -/
def hexEncode : List Nat → Str
  | [] => []
  | b :: rest => hexDigit (b / 16) :: hexDigit (b % 16) :: hexEncode rest

/-! ## hasLeadingZeros (internal/pow) -/

/-- The index loop of `hasLeadingZeros`: with `fuel` indices left to scan,
checks `hash[i], hash[i+1], …`, failing on the first non-zero byte. -/
def hlzGo (hash : List Nat) : Nat → Nat → Bool
  | 0, _ => true
  | fuel + 1, i =>
    if hash.getD i 0 ≠ 0 then false
    else hlzGo hash fuel (i + 1)

/-- `hasLeadingZeros(hash, difficulty)` from `internal/pow`: false when the
difficulty exceeds the digest length, otherwise true iff the first
`difficulty` bytes are all zero. -/
def hasLeadingZeros (hash : List Nat) (difficulty : Nat) : Bool :=
  if difficulty > hash.length then false
  else hlzGo hash difficulty 0

/-! ## The outstanding-challenge map (Go `map[string]time.Time`) -/

/-- Go map lookup `m[k]` (second return value folded into `Option`). -/
def mapLoad (m : List (Str × Int)) (k : Str) : Option Int :=
  match m.find? (fun p => p.1 == k) with
  | some p => some p.2
  | none => none

/-- Go `delete(m, k)`. -/
def mapDelete (m : List (Str × Int)) (k : Str) : List (Str × Int) :=
  m.filter (fun p => !(p.1 == k))

/-- Go map assignment `m[k] = v` (overwrites any existing entry for `k`). -/
def mapStore (m : List (Str × Int)) (k : Str) (v : Int) : List (Str × Int) :=
  (k, v) :: mapDelete m k

theorem mapLoad_cons (p : Str × Int) (rest : List (Str × Int)) (u : Str) :
    mapLoad (p :: rest) u = if p.1 = u then some p.2 else mapLoad rest u := by
  by_cases h : p.1 = u <;> simp [mapLoad, List.find?_cons, h]

theorem mapDelete_cons (p : Str × Int) (rest : List (Str × Int)) (k : Str) :
    mapDelete (p :: rest) k =
      if p.1 = k then mapDelete rest k else p :: mapDelete rest k := by
  by_cases h : p.1 = k <;> simp [mapDelete, List.filter_cons, h]

theorem mapLoad_delete_self (m : List (Str × Int)) (k : Str) :
    mapLoad (mapDelete m k) k = none := by
  induction m with
  | nil => rfl
  | cons p rest ih =>
    rw [mapDelete_cons]
    by_cases h : p.1 = k
    · simpa [h] using ih
    · rw [if_neg h, mapLoad_cons, if_neg h]; exact ih

theorem mapLoad_delete_ne (m : List (Str × Int)) (k u : Str) (h : u ≠ k) :
    mapLoad (mapDelete m k) u = mapLoad m u := by
  induction m with
  | nil => rfl
  | cons p rest ih =>
    rw [mapDelete_cons, mapLoad_cons]
    by_cases hp : p.1 = k
    · have hpu : ¬ p.1 = u := fun hc => h (by rw [← hc, hp])
      rw [if_pos hp, if_neg hpu]; exact ih
    · rw [if_neg hp, mapLoad_cons]
      by_cases hpu : p.1 = u
      · rw [if_pos hpu, if_pos hpu]
      · rw [if_neg hpu, if_neg hpu]; exact ih

theorem mapLoad_store_self (m : List (Str × Int)) (k : Str) (v : Int) :
    mapLoad (mapStore m k v) k = some v := by
  rw [mapStore, mapLoad_cons, if_pos rfl]

theorem mapLoad_store_ne (m : List (Str × Int)) (k u : Str) (v : Int) (h : u ≠ k) :
    mapLoad (mapStore m k v) u = mapLoad m u := by
  rw [mapStore, mapLoad_cons, if_neg (fun hc => h hc.symm)]
  exact mapLoad_delete_ne m k u h

/-! ## SHA-256 (crypto/sha256, FIPS 180-4), over byte lists
32-bit machine words are `Nat` values kept below `2^32` by explicit
reduction. -/

/-- `2^32`, the word modulus. -/
def w32 : Nat := 4294967296

/-- 32-bit addition. -/
def add32 (a b : Nat) : Nat := (a + b) % w32

/-- 32-bit right rotation (argument assumed `< 2^32`). -/
def rotr32 (x n : Nat) : Nat := (x >>> n) ||| ((x <<< (32 - n)) % w32)

/-- 32-bit complement. -/
def not32 (x : Nat) : Nat := Nat.xor x (w32 - 1)

/-- SHA-256 big sigma 0. -/
def bsig0 (x : Nat) : Nat := Nat.xor (Nat.xor (rotr32 x 2) (rotr32 x 13)) (rotr32 x 22)

/-- SHA-256 big sigma 1. -/
def bsig1 (x : Nat) : Nat := Nat.xor (Nat.xor (rotr32 x 6) (rotr32 x 11)) (rotr32 x 25)

/-- SHA-256 small sigma 0. -/
def ssig0 (x : Nat) : Nat := Nat.xor (Nat.xor (rotr32 x 7) (rotr32 x 18)) (x >>> 3)

/-- SHA-256 small sigma 1. -/
def ssig1 (x : Nat) : Nat := Nat.xor (Nat.xor (rotr32 x 17) (rotr32 x 19)) (x >>> 10)

/-- SHA-256 choice function. -/
def ch (x y z : Nat) : Nat := Nat.xor (Nat.land x y) (Nat.land (not32 x) z)

/-- SHA-256 majority function. -/
def maj (x y z : Nat) : Nat :=
  Nat.xor (Nat.xor (Nat.land x y) (Nat.land x z)) (Nat.land y z)

/-- The 64 SHA-256 round constants (FIPS 180-4 §4.2.2, written in
decimal). -/
def K : List Nat :=
  [1116352408, 1899447441, 3049323471, 3921009573, 961987163,
   1508970993, 2453635748, 2870763221, 3624381080, 310598401,
   607225278, 1426881987, 1925078388, 2162078206, 2614888103,
   3248222580, 3835390401, 4022224774, 264347078, 604807628,
   770255983, 1249150122, 1555081692, 1996064986, 2554220882,
   2821834349, 2952996808, 3210313671, 3336571891, 3584528711,
   113926993, 338241895, 666307205, 773529912, 1294757372,
   1396182291, 1695183700, 1986661051, 2177026350, 2456956037,
   2730485921, 2820302411, 3259730800, 3345764771, 3516065817,
   3600352804, 4094571909, 275423344, 430227734, 506948616,
   659060556, 883997877, 958139571, 1322822218, 1537002063,
   1747873779, 1955562222, 2024104815, 2227730452, 2361852424,
   2428436474, 2756734187, 3204031479, 3329325298]

/-- The SHA-256 initial hash value (FIPS 180-4 §5.3.3, written in
decimal). -/
def H0 : List Nat :=
  [1779033703, 3144134277, 1013904242, 2773480762,
   1359893119, 2600822924, 528734635, 1541459225]

/-- Big-endian 8-byte rendering of a 64-bit value. -/
def be64 (n : Nat) : List Nat :=
  [n >>> 56 % 256, n >>> 48 % 256, n >>> 40 % 256, n >>> 32 % 256,
   n >>> 24 % 256, n >>> 16 % 256, n >>> 8 % 256, n % 256]

/-- SHA-256 padding: append `0x80`, zero bytes to 56 mod 64, then the
bit length as 8 big-endian bytes. -/
def padMessage (msg : List Nat) : List Nat :=
  let L := msg.length
  msg ++ 128 :: List.replicate ((119 - L % 64) % 64) 0
      ++ be64 ((8 * L) % 18446744073709551616)

/-- Assemble big-endian 32-bit words from groups of four bytes. -/
def bytesToWords : List Nat → List Nat
  | b0 :: b1 :: b2 :: b3 :: rest =>
    Nat.lor (Nat.lor (Nat.lor (b0 <<< 24) (b1 <<< 16)) (b2 <<< 8)) b3 ::
      bytesToWords rest
  | _ => []

/-- Extend the 16-word message schedule by `fuel` further words (48 rounds
of extension for SHA-256). -/
def extendSchedule (ws : List Nat) : Nat → List Nat
  | 0 => ws
  | fuel + 1 =>
    let n := ws.length
    let nw := add32 (add32 (ws.getD (n - 16) 0) (ssig0 (ws.getD (n - 15) 0)))
                    (add32 (ws.getD (n - 7) 0) (ssig1 (ws.getD (n - 2) 0)))
    extendSchedule (ws ++ [nw]) fuel

/-- The eight SHA-256 working variables. -/
structure Hash8 where
  a : Nat
  b : Nat
  c : Nat
  d : Nat
  e : Nat
  f : Nat
  g : Nat
  h : Nat

/-- One SHA-256 compression round, consuming a (round constant, schedule
word) pair. -/
def roundStep (st : Hash8) (kw : Nat × Nat) : Hash8 :=
  let t1 := add32 (add32 (add32 st.h (bsig1 st.e)) (add32 (ch st.e st.f st.g) kw.1)) kw.2
  let t2 := add32 (bsig0 st.a) (maj st.a st.b st.c)
  { a := add32 t1 t2, b := st.a, c := st.b, d := st.c,
    e := add32 st.d t1, f := st.e, g := st.f, h := st.g }

/-- Compress one 64-byte chunk into the running hash state. -/
def compressChunk (hs : List Nat) (chunk : List Nat) : List Nat :=
  let ws := extendSchedule (bytesToWords chunk) 48
  let init : Hash8 :=
    { a := hs.getD 0 0, b := hs.getD 1 0, c := hs.getD 2 0, d := hs.getD 3 0,
      e := hs.getD 4 0, f := hs.getD 5 0, g := hs.getD 6 0, h := hs.getD 7 0 }
  let st := (K.zip ws).foldl roundStep init
  [add32 (hs.getD 0 0) st.a, add32 (hs.getD 1 0) st.b,
   add32 (hs.getD 2 0) st.c, add32 (hs.getD 3 0) st.d,
   add32 (hs.getD 4 0) st.e, add32 (hs.getD 5 0) st.f,
   add32 (hs.getD 6 0) st.g, add32 (hs.getD 7 0) st.h]

/-- Chunk-splitting loop, structurally recursive on a fuel bound (any fuel
`≥ bs.length` exhausts the list). -/
def chunks64Go : Nat → List Nat → List (List Nat)
  | 0, _ => []
  | fuel + 1, bs =>
    if bs = [] then []
    else bs.take 64 :: chunks64Go fuel (bs.drop 64)

/-- Split a byte list into 64-byte chunks. -/
def chunks64 (bs : List Nat) : List (List Nat) := chunks64Go bs.length bs

/-- Big-endian 4-byte rendering of a 32-bit word. -/
def wordBytes (x : Nat) : List Nat :=
  [x >>> 24 % 256, x >>> 16 % 256, x >>> 8 % 256, x % 256]

/-- SHA-256 of a byte sequence, as `sha256.Sum256` computes. -/
def sha256 (msg : List Nat) : List Nat :=
  let hs := (chunks64 (padMessage msg)).foldl compressChunk H0
  wordBytes (hs.getD 0 0) ++ wordBytes (hs.getD 1 0) ++
  wordBytes (hs.getD 2 0) ++ wordBytes (hs.getD 3 0) ++
  wordBytes (hs.getD 4 0) ++ wordBytes (hs.getD 5 0) ++
  wordBytes (hs.getD 6 0) ++ wordBytes (hs.getD 7 0)

/-- A SHA-256 digest is always 32 bytes. -/
theorem sha256_length (msg : List Nat) : (sha256 msg).length = 32 := by
  simp [sha256, wordBytes]

set_option maxRecDepth 40000 in
/-- Sanity check against the FIPS 180-4 test vector: SHA-256 of the ASCII
string abc. -/
theorem sha256_abc :
    sha256 [97, 98, 99] =
      [186, 120, 22, 191, 143, 1, 207, 234,
       65, 65, 64, 222, 93, 174, 34, 35,
       176, 3, 97, 163, 150, 23, 122, 156,
       180, 16, 255, 97, 242, 0, 21, 173] := by
  decide

/-! ## The challenge engine (`SHA256HashcashService`, internal/pow)

`time.Now()` instants and `time.Now().Unix()` seconds are explicit
parameters; the 16 random bytes drawn by `crypto/rand` are an explicit
parameter; `time.Since(t) > ttl` becomes `now - t > ttl`. -/

/-- Error outcomes of `VerifyProof` (Go returns them as distinct
`fmt.Errorf` values). -/
inductive VerifyErr
  | notFound
  | expired
deriving DecidableEq, Repr

/-- Error outcome of `GenerateChallenge` when the outstanding set is at its
configured ceiling. -/
inductive GenErr
  | capacity
deriving DecidableEq, Repr

/-- Cancellation outcome of `SolveChallenge` (`ctx.Err()`). -/
inductive SolveErr
  | cancelled
deriving DecidableEq, Repr

/-- `SHA256HashcashService`: difficulty, challenge TTL, outstanding-set
ceiling, and the outstanding-challenge map. -/
structure Engine where
  difficulty : Nat
  challengeTTL : Int
  maxActiveChallenges : Int
  activeChallenges : List (Str × Int)
deriving DecidableEq, Repr

/-- `GenerateChallenge`: builds the token
`fmt.Sprintf("%d:%s", unixSec, hex.EncodeToString(randomBytes))`, fails
with a capacity error at the ceiling, otherwise registers the token at the
current instant. -/
def GenerateChallenge (s : Engine) (unixSec : Int) (randomBytes : List Nat)
    (now : Int) : Except GenErr Str × Engine :=
  let challenge := intToDecBytes unixSec ++ 58 :: hexEncode randomBytes
  if 0 < s.maxActiveChallenges ∧
      (s.activeChallenges.length : Int) ≥ s.maxActiveChallenges then
    (Except.error GenErr.capacity, s)
  else
    (Except.ok challenge,
     { s with activeChallenges := mapStore s.activeChallenges challenge now })

/-- `VerifyProof`: unknown tokens fail with the not-found error; expired
tokens are deleted and fail with the expired error; otherwise the SHA-256
digest of challenge ++ nonce is checked against the configured difficulty
and the token is deleted in both the valid and the invalid outcome. -/
def VerifyProof (s : Engine) (now : Int) (challenge nonce : Str) :
    Except VerifyErr Bool × Engine :=
  match mapLoad s.activeChallenges challenge with
  | none => (Except.error VerifyErr.notFound, s)
  | some timestamp =>
    if now - timestamp > s.challengeTTL then
      (Except.error VerifyErr.expired,
       { s with activeChallenges := mapDelete s.activeChallenges challenge })
    else
      let hash := sha256 (challenge ++ nonce)
      if ¬ hasLeadingZeros hash s.difficulty then
        (Except.ok false,
         { s with activeChallenges := mapDelete s.activeChallenges challenge })
      else
        (Except.ok true,
         { s with activeChallenges := mapDelete s.activeChallenges challenge })

/-- `InvalidateChallenge`: unconditionally removes the token. -/
def InvalidateChallenge (s : Engine) (challenge : Str) : Engine :=
  { s with activeChallenges := mapDelete s.activeChallenges challenge }

/-- `GetDifficulty`. -/
def GetDifficulty (s : Engine) : Nat := s.difficulty

/-- The `SolveChallenge` loop: `cancelAfter` counts loop iterations until
the context's cancellation signal is observed (the `select` on `ctx.Done()`
runs before each attempt); nonces are tried as decimal strings in
increasing order. -/
def solveLoop (c : Str) (difficulty : Nat) : Nat → Nat → Except SolveErr Str
  | 0, _ => Except.error SolveErr.cancelled
  | fuel + 1, nonce =>
    let nonceStr := natDecBytes nonce
    let hash := sha256 (c ++ nonceStr)
    if hasLeadingZeros hash difficulty then Except.ok nonceStr
    else solveLoop c difficulty fuel (nonce + 1)

/-- `SolveChallenge`: brute-force search from nonce 0. -/
def SolveChallenge (cancelAfter : Nat) (c : Str) (difficulty : Nat) :
    Except SolveErr Str :=
  solveLoop c difficulty cancelAfter 0

/-! ## Message framing (pkg/protocol) -/

/-- `MaxMessageSize = 1 << 16`. -/
def MaxMessageSize : Nat := 65536

/-- Error outcome of `WriteMessage` on an oversized payload. -/
inductive WriteErr
  | msgTooLarge
deriving DecidableEq, Repr

/-- Error outcomes of `ReadMessage`. -/
inductive ReadErr
  | lengthReadFailed
  | invalidLength
  | bodyReadFailed
deriving DecidableEq, Repr

/-- 4-byte little-endian rendering of a 32-bit length
(`binary.LittleEndian.PutUint32`). -/
def le32 (n : Nat) : List Nat :=
  [n % 256, n >>> 8 % 256, n >>> 16 % 256, n >>> 24 % 256]

/-- Little-endian 32-bit decode (`binary.LittleEndian.Uint32`). -/
def le32decode (bs : List Nat) : Nat :=
  bs.getD 0 0 + (bs.getD 1 0 <<< 8) + (bs.getD 2 0 <<< 16) + (bs.getD 3 0 <<< 24)

/-- `WriteMessage` over an explicit output stream: an oversized serialized
payload fails leaving the stream untouched; otherwise the 4-byte length
prefix and the payload are appended in full. -/
def WriteMessage (stream : List Nat) (jsonData : List Nat) :
    Option WriteErr × List Nat :=
  if jsonData.length > MaxMessageSize then (some WriteErr.msgTooLarge, stream)
  else (none, stream ++ le32 jsonData.length ++ jsonData)

/-- `ReadMessage` over an explicit input stream: reads the 4-byte prefix,
rejects zero or oversized declared lengths before touching the body, then
reads exactly that many body bytes, returning the body and the remaining
stream. -/
def ReadMessage (stream : List Nat) : Except ReadErr (List Nat × List Nat) :=
  if stream.length < 4 then Except.error ReadErr.lengthReadFailed
  else
    let length := le32decode (stream.take 4)
    if length = 0 ∨ length > MaxMessageSize then Except.error ReadErr.invalidLength
    else
      let rest := stream.drop 4
      if rest.length < length then Except.error ReadErr.bodyReadFailed
      else Except.ok (rest.take length, rest.drop length)

/-! ## The per-connection handler (internal/server `handleConnection`)

I/O is explicit: whether the challenge write succeeded, the proof message
read (`none` models a read failure), and the verification instant are
parameters. The handler result records the engine calls made, the messages
it attempted to send, and the final engine state. -/

/-- Engine calls the handler can make, in order. -/
inductive EngineCall
  | genCall
  | verifyCall (challenge nonce : Str)
  | invalidateCall (challenge : Str)
deriving DecidableEq, Repr

/-- Messages the handler attempts to send. -/
inductive SrvMsg
  | challengeMsg (challenge : Str) (difficulty : Nat)
  | quoteMsg (quote : Str)
  | errorMsg (message : String)
deriving DecidableEq, Repr

/-- The text of the `fmt.Errorf` values surfaced in the handler's
verification-error message. -/
def verifyErrText : VerifyErr → String
  | VerifyErr.notFound => "challenge not found or already used"
  | VerifyErr.expired => "challenge expired"

/-- `handleConnection`: generate and send a challenge, read the proof,
reject a token mismatch before consulting `VerifyProof`, then verify and
answer with a quote or an error. -/
def handleConnection (s : Engine) (unixSec : Int) (randomBytes : List Nat)
    (genNow : Int) (challengeWriteOk : Bool) (readProof : Option (Str × Str))
    (verifyNow : Int) (quote : Str) :
    List EngineCall × List SrvMsg × Engine :=
  match GenerateChallenge s unixSec randomBytes genNow with
  | (Except.error _, s1) =>
    ([EngineCall.genCall], [SrvMsg.errorMsg "Internal server error"], s1)
  | (Except.ok challenge, s1) =>
    if challengeWriteOk = false then
      ([EngineCall.genCall, EngineCall.invalidateCall challenge],
       [SrvMsg.challengeMsg challenge s1.difficulty],
       InvalidateChallenge s1 challenge)
    else
      match readProof with
      | none =>
        ([EngineCall.genCall, EngineCall.invalidateCall challenge],
         [SrvMsg.challengeMsg challenge s1.difficulty,
          SrvMsg.errorMsg "Failed to read proof"],
         InvalidateChallenge s1 challenge)
      | some (proofChallenge, proofNonce) =>
        if proofChallenge ≠ challenge then
          ([EngineCall.genCall, EngineCall.invalidateCall challenge],
           [SrvMsg.challengeMsg challenge s1.difficulty,
            SrvMsg.errorMsg "Challenge mismatch"],
           InvalidateChallenge s1 challenge)
        else
          match VerifyProof s1 verifyNow proofChallenge proofNonce with
          | (Except.error e, s2) =>
            ([EngineCall.genCall, EngineCall.verifyCall proofChallenge proofNonce],
             [SrvMsg.challengeMsg challenge s1.difficulty,
              SrvMsg.errorMsg ("Proof verification error: " ++ verifyErrText e)],
             s2)
          | (Except.ok false, s2) =>
            ([EngineCall.genCall, EngineCall.verifyCall proofChallenge proofNonce],
             [SrvMsg.challengeMsg challenge s1.difficulty,
              SrvMsg.errorMsg "Invalid proof"],
             s2)
          | (Except.ok true, s2) =>
            ([EngineCall.genCall, EngineCall.verifyCall proofChallenge proofNonce],
             [SrvMsg.challengeMsg challenge s1.difficulty, SrvMsg.quoteMsg quote],
             s2)

/-! ## Characterization lemmas -/

theorem hlzGo_eq_true_iff (hash : List Nat) :
    ∀ fuel i, hlzGo hash fuel i = true ↔
      ∀ j, i ≤ j → j < i + fuel → hash.getD j 0 = 0 := by
  intro fuel
  induction fuel with
  | zero =>
    intro i
    simp only [hlzGo, true_iff]
    intro j hij hj
    omega
  | succ f ih =>
    intro i
    simp only [hlzGo]
    by_cases hz : hash.getD i 0 ≠ 0
    · simp only [if_pos hz, Bool.false_eq_true, false_iff]
      intro hall
      exact hz (hall i le_rfl (by omega))
    · push_neg at hz
      rw [if_neg (by simpa using hz)]
      rw [ih (i + 1)]
      constructor
      · intro hall j hij hj
        rcases Nat.eq_or_lt_of_le hij with rfl | hlt
        · exact hz
        · exact hall j hlt (by omega)
      · intro hall j hij hj
        exact hall j (by omega) (by omega)

theorem hasLeadingZeros_eq_true_iff (hash : List Nat) (d : Nat) :
    hasLeadingZeros hash d = true ↔
      d ≤ hash.length ∧ ∀ i, i < d → hash.getD i 0 = 0 := by
  unfold hasLeadingZeros
  by_cases hlen : d > hash.length
  · simp only [if_pos hlen, Bool.false_eq_true, false_iff]
    intro hc
    omega
  · rw [if_neg hlen, hlzGo_eq_true_iff]
    constructor
    · intro hall
      exact ⟨by omega, fun i hi => hall i (Nat.zero_le i) (by omega)⟩
    · intro hall j hj hjd
      exact hall.2 j (by omega)

/-- C2: `hasLeadingZeros(h, d)` is true iff `d ≤ len(h)` and the first `d`
bytes of `h` are all `0x00`; in particular it is true at `d = 0`, true at
`d = len(h)` when all bytes are zero, and false for every `d > len(h)`. -/
theorem hasLeadingZeros_spec (h : List Nat) (d : Nat) :
    (hasLeadingZeros h d = true ↔
      d ≤ h.length ∧ ∀ i, i < d → h.getD i 0 = 0)
  ∧ hasLeadingZeros h 0 = true
  ∧ ((∀ b ∈ h, b = 0) → hasLeadingZeros h h.length = true)
  ∧ (∀ e, h.length < e → hasLeadingZeros h e = false) := by
  refine ⟨hasLeadingZeros_eq_true_iff h d, ?_, ?_, ?_⟩
  · rw [hasLeadingZeros_eq_true_iff]
    exact ⟨Nat.zero_le _, fun i hi => absurd hi (Nat.not_lt_zero i)⟩
  · intro hall
    rw [hasLeadingZeros_eq_true_iff]
    refine ⟨le_rfl, fun i hi => ?_⟩
    rw [List.getD_eq_getElem h 0 hi]
    exact hall _ (List.getElem_mem hi)
  · intro e he
    unfold hasLeadingZeros
    rw [if_pos he]

/-- Witness for C2 at a concrete digest. -/
theorem hasLeadingZeros_spec_witness :
    hasLeadingZeros [0, 0, 1] 2 = true ∧ hasLeadingZeros [0, 0, 1] 4 = false :=
  ⟨(hasLeadingZeros_spec [0, 0, 1] 2).1.mpr ⟨by decide, by decide⟩,
   (hasLeadingZeros_spec [0, 0, 1] 2).2.2.2 4 (by decide)⟩

/-- After any `VerifyProof` call, the token is not in the resulting
outstanding set. -/
theorem verify_removes_token (s : Engine) (now : Int) (c n : Str) :
    mapLoad (VerifyProof s now c n).2.activeChallenges c = none := by
  unfold VerifyProof
  cases hm : mapLoad s.activeChallenges c with
  | none => simpa using hm
  | some ts =>
    by_cases hexp : now - ts > s.challengeTTL
    · simp [hexp, mapLoad_delete_self]
    · by_cases hh : hasLeadingZeros (sha256 (c ++ n)) s.difficulty
      · simp [hexp, hh, mapLoad_delete_self]
      · simp [hexp, hh, mapLoad_delete_self]

/-- A `VerifyProof` call on an absent token fails with the not-found error
and leaves the engine unchanged. -/
theorem verify_absent (s : Engine) (now : Int) (c n : Str)
    (h : mapLoad s.activeChallenges c = none) :
    VerifyProof s now c n = (Except.error VerifyErr.notFound, s) := by
  unfold VerifyProof
  rw [h]

/-- C1: after one `VerifyProof(t, nonce)` call returns (with any outcome),
`t` is no longer in the outstanding set, and every second
`VerifyProof(t, nonce2)` call fails with the not-found error. -/
theorem verifyProof_at_most_once (s : Engine) (now : Int) (t nonce : Str) :
    mapLoad (VerifyProof s now t nonce).2.activeChallenges t = none
  ∧ ∀ (now2 : Int) (nonce2 : Str),
      (VerifyProof (VerifyProof s now t nonce).2 now2 t nonce2).1 =
        Except.error VerifyErr.notFound := by
  refine ⟨verify_removes_token s now t nonce, fun now2 nonce2 => ?_⟩
  rw [verify_absent _ now2 t nonce2 (verify_removes_token s now t nonce)]

/-- C6: verifying a present but expired token fails with the expired error,
for every nonce, and removes the token from the outstanding set. -/
theorem verifyProof_expired (s : Engine) (now : Int) (t : Str) (ts : Int)
    (nonce : Str) (hload : mapLoad s.activeChallenges t = some ts)
    (hexp : now - ts > s.challengeTTL) :
    (VerifyProof s now t nonce).1 = Except.error VerifyErr.expired
  ∧ mapLoad (VerifyProof s now t nonce).2.activeChallenges t = none := by
  unfold VerifyProof
  rw [hload]
  simp [hexp, mapLoad_delete_self]

/-- Witness for C6: a token issued at time 0 with TTL 1 verified at time 5. -/
theorem verifyProof_expired_witness :
    (VerifyProof ⟨0, 1, 0, [([97], 0)]⟩ 5 [97] []).1 = Except.error VerifyErr.expired
  ∧ mapLoad (VerifyProof ⟨0, 1, 0, [([97], 0)]⟩ 5 [97] []).2.activeChallenges [97] =
      none :=
  verifyProof_expired ⟨0, 1, 0, [([97], 0)]⟩ 5 [97] 0 [] (by decide) (by decide)

/-! ## The brute-force search -/

theorem solveLoop_ok_spec (c : Str) (d : Nat) :
    ∀ fuel start n, solveLoop c d fuel start = Except.ok n →
      ∃ m, start ≤ m ∧ m < start + fuel ∧ n = natDecBytes m ∧
        hasLeadingZeros (sha256 (c ++ natDecBytes m)) d = true ∧
        ∀ k, start ≤ k → k < m →
          hasLeadingZeros (sha256 (c ++ natDecBytes k)) d = false := by
  intro fuel
  induction fuel with
  | zero => intro start n h; exact absurd h (by simp [solveLoop])
  | succ f ih =>
    intro start n h
    rw [solveLoop] at h
    by_cases hp : hasLeadingZeros (sha256 (c ++ natDecBytes start)) d
    · rw [if_pos hp] at h
      refine ⟨start, le_rfl, by omega, (Except.ok.inj h).symm, hp, ?_⟩
      intro k hk1 hk2
      omega
    · rw [if_neg hp] at h
      obtain ⟨m, hm1, hm2, hm3, hm4, hm5⟩ := ih (start + 1) n h
      refine ⟨m, by omega, by omega, hm3, hm4, ?_⟩
      intro k hk1 hk2
      rcases Nat.eq_or_lt_of_le hk1 with rfl | hlt
      · simpa using hp
      · exact hm5 k hlt hk2

theorem solveLoop_cancelled_spec (c : Str) (d : Nat) :
    ∀ fuel start e, solveLoop c d fuel start = Except.error e →
      ∀ k, start ≤ k → k < start + fuel →
        hasLeadingZeros (sha256 (c ++ natDecBytes k)) d = false := by
  intro fuel
  induction fuel with
  | zero => intro start e _ k hk1 hk2; omega
  | succ f ih =>
    intro start e h k hk1 hk2
    rw [solveLoop] at h
    by_cases hp : hasLeadingZeros (sha256 (c ++ natDecBytes start)) d
    · rw [if_pos hp] at h; cases h
    · rw [if_neg hp] at h
      rcases Nat.eq_or_lt_of_le hk1 with rfl | hlt
      · simpa using hp
      · exact ih (start + 1) e h k hlt (by omega)

/-- C8: a returned nonce is the decimal encoding of the smallest natural
number whose digest (SHA-256 of challenge ++ nonce, as verification
computes it) satisfies the leading-zero predicate, nonces being tried in
the order 0, 1, 2, …; the cancellation signal is honoured before each
attempt, and a cancelled search has tried and failed exactly the first
`cancelAfter` nonces. -/
theorem solveChallenge_order (cancelAfter : Nat) (c : Str) (d : Nat) :
    (∀ n, SolveChallenge cancelAfter c d = Except.ok n →
      ∃ m, m < cancelAfter ∧ n = natDecBytes m ∧
        hasLeadingZeros (sha256 (c ++ natDecBytes m)) d = true ∧
        ∀ k, k < m → hasLeadingZeros (sha256 (c ++ natDecBytes k)) d = false)
  ∧ (SolveChallenge cancelAfter c d = Except.error SolveErr.cancelled →
      ∀ k, k < cancelAfter →
        hasLeadingZeros (sha256 (c ++ natDecBytes k)) d = false)
  ∧ SolveChallenge 0 c d = Except.error SolveErr.cancelled := by
  refine ⟨?_, ?_, rfl⟩
  · intro n h
    obtain ⟨m, hm1, hm2, hm3, hm4, hm5⟩ := solveLoop_ok_spec c d cancelAfter 0 n h
    exact ⟨m, by omega, hm3, hm4, fun k hk => hm5 k (Nat.zero_le k) hk⟩
  · intro h k hk
    exact solveLoop_cancelled_spec c d cancelAfter 0 _ h k (Nat.zero_le k) (by omega)

/-- Witness for C8: difficulty 0 finds nonce 0 on the first attempt. -/
theorem solveChallenge_order_witness :
    ∃ m, m < 1 ∧ ([48] : Str) = natDecBytes m ∧
      hasLeadingZeros (sha256 (([] : Str) ++ natDecBytes m)) 0 = true ∧
      ∀ k, k < m →
        hasLeadingZeros (sha256 (([] : Str) ++ natDecBytes k)) 0 = false :=
  (solveChallenge_order 1 [] 0).1 [48] (by decide)

/-- C3: any nonce returned by `SolveChallenge` verifies: on an engine whose
difficulty equals the solve difficulty, with the challenge registered and
unexpired, `VerifyProof` returns valid = true. -/
theorem solve_verify_roundtrip (cancelAfter : Nat) (c : Str) (d : Nat)
    (n : Str) (s : Engine) (now ts : Int)
    (hsolve : SolveChallenge cancelAfter c d = Except.ok n)
    (hdiff : s.difficulty = d)
    (hreg : mapLoad s.activeChallenges c = some ts)
    (hfresh : ¬ now - ts > s.challengeTTL) :
    (VerifyProof s now c n).1 = Except.ok true := by
  obtain ⟨m, _, _, hm3, hm4, _⟩ := solveLoop_ok_spec c d cancelAfter 0 n hsolve
  unfold VerifyProof
  rw [hreg]
  simp only [if_neg hfresh]
  rw [hm3, hdiff, hm4]
  simp

/-- Witness for C3: solving the one-byte challenge `a` at difficulty 0 and
verifying the result on a fresh engine. -/
theorem solve_verify_roundtrip_witness :
    (VerifyProof ⟨0, 100, 0, [([97], 0)]⟩ 0 [97] [48]).1 = Except.ok true :=
  solve_verify_roundtrip 1 [97] 0 [48] ⟨0, 100, 0, [([97], 0)]⟩ 0 0
    (by decide) rfl (by decide) (by decide)

/-- At a difficulty above the 32-byte digest length, the predicate never
holds. -/
theorem hasLeadingZeros_sha256_false (x : List Nat) (d : Nat) (h : 32 < d) :
    hasLeadingZeros (sha256 x) d = false := by
  unfold hasLeadingZeros
  rw [if_pos (by rw [sha256_length]; omega)]

/-- C9: for every difficulty above 32 the success branch of the search is
unreachable, so `SolveChallenge` can only terminate by cancellation. -/
theorem solveChallenge_high_difficulty_cancels (cancelAfter : Nat) (c : Str)
    (d : Nat) (h : 32 < d) :
    SolveChallenge cancelAfter c d = Except.error SolveErr.cancelled := by
  unfold SolveChallenge
  generalize 0 = start
  induction cancelAfter generalizing start with
  | zero => rfl
  | succ f ih =>
    rw [solveLoop, if_neg (by rw [hasLeadingZeros_sha256_false _ d h]; simp)]
    exact ih (start + 1)

/-- Witness for C9 at difficulty 33. -/
theorem solveChallenge_high_difficulty_cancels_witness :
    SolveChallenge 5 [97] 33 = Except.error SolveErr.cancelled :=
  solveChallenge_high_difficulty_cancels 5 [97] 33 (by decide)

/-! ## Token shape -/

theorem hexEncode_length (bs : List Nat) :
    (hexEncode bs).length = 2 * bs.length := by
  induction bs with
  | nil => rfl
  | cons b rest ih => simp [hexEncode, ih]; omega

theorem hexDigit_range (n : Nat) (h : n < 16) :
    (48 ≤ hexDigit n ∧ hexDigit n ≤ 57) ∨ (97 ≤ hexDigit n ∧ hexDigit n ≤ 102) := by
  unfold hexDigit
  by_cases h10 : n < 10
  · rw [if_pos h10]; omega
  · rw [if_neg h10]; omega

theorem hexEncode_chars (bs : List Nat) (hb : ∀ b ∈ bs, b < 256) :
    ∀ x ∈ hexEncode bs, (48 ≤ x ∧ x ≤ 57) ∨ (97 ≤ x ∧ x ≤ 102) := by
  induction bs with
  | nil => intro x hx; cases hx
  | cons b rest ih =>
    intro x hx
    have hblt : b < 256 := hb b (List.mem_cons_self b rest)
    simp only [hexEncode, List.mem_cons] at hx
    rcases hx with rfl | rfl | hx
    · exact hexDigit_range (b / 16) (by omega)
    · exact hexDigit_range (b % 16) (by omega)
    · exact ih (fun y hy => hb y (List.mem_cons_of_mem b hy)) x hx

theorem natDecGo_chars :
    ∀ fuel n, ∀ x ∈ natDecGo fuel n, 48 ≤ x ∧ x ≤ 57 := by
  intro fuel
  induction fuel with
  | zero => intro n x hx; cases hx
  | succ f ih =>
    intro n x hx
    rw [natDecGo] at hx
    by_cases h10 : n < 10
    · rw [if_pos h10] at hx
      rcases List.mem_singleton.mp hx with rfl
      omega
    · rw [if_neg h10] at hx
      rcases List.mem_append.mp hx with hx | hx
      · exact ih (n / 10) x hx
      · rcases List.mem_singleton.mp hx with rfl
        omega

theorem intToDecBytes_chars (i : Int) :
    ∀ x ∈ intToDecBytes i, (48 ≤ x ∧ x ≤ 57) ∨ x = 45 := by
  unfold intToDecBytes
  by_cases hneg : i < 0
  · rw [if_pos hneg]
    intro x hx
    rcases List.mem_cons.mp hx with rfl | hx
    · right; rfl
    · exact Or.inl (natDecGo_chars _ _ x hx)
  · rw [if_neg hneg]
    intro x hx
    exact Or.inl (natDecGo_chars _ _ x hx)

/-- C5: `GenerateChallenge` fails with the capacity error, leaving the
outstanding set unchanged, whenever the set has reached a positive
configured ceiling; otherwise it returns a token of the form
`<decimal unix timestamp>:<hex of the 16 random bytes>` (32 lowercase hex
digit bytes after the colon) and registers exactly that token at the
current instant. -/
theorem generateChallenge_spec (s : Engine) (unixSec : Int) (rb : List Nat)
    (now : Int) :
    (0 < s.maxActiveChallenges →
      (s.activeChallenges.length : Int) ≥ s.maxActiveChallenges →
      GenerateChallenge s unixSec rb now = (Except.error GenErr.capacity, s))
  ∧ (¬ (0 < s.maxActiveChallenges ∧
        (s.activeChallenges.length : Int) ≥ s.maxActiveChallenges) →
      rb.length = 16 → (∀ b ∈ rb, b < 256) →
      ∃ tok,
        GenerateChallenge s unixSec rb now =
          (Except.ok tok,
           { s with activeChallenges := mapStore s.activeChallenges tok now })
        ∧ tok = intToDecBytes unixSec ++ 58 :: hexEncode rb
        ∧ (hexEncode rb).length = 32
        ∧ (∀ x ∈ hexEncode rb, (48 ≤ x ∧ x ≤ 57) ∨ (97 ≤ x ∧ x ≤ 102))
        ∧ (∀ x ∈ intToDecBytes unixSec, (48 ≤ x ∧ x ≤ 57) ∨ x = 45)
        ∧ mapLoad (mapStore s.activeChallenges tok now) tok = some now) := by
  constructor
  · intro hpos hfull
    unfold GenerateChallenge
    rw [if_pos ⟨hpos, hfull⟩]
  · intro hroom hlen hbytes
    refine ⟨intToDecBytes unixSec ++ 58 :: hexEncode rb, ?_, rfl, ?_, ?_, ?_, ?_⟩
    · unfold GenerateChallenge
      rw [if_neg hroom]
    · rw [hexEncode_length, hlen]
    · exact hexEncode_chars rb hbytes
    · exact intToDecBytes_chars unixSec
    · exact mapLoad_store_self _ _ _

/-- Witness for C5: one engine at its ceiling, one with room. -/
theorem generateChallenge_spec_witness :
    GenerateChallenge ⟨0, 100, 1, [([97], 0)]⟩ 3 (List.replicate 16 0) 7 =
      (Except.error GenErr.capacity, ⟨0, 100, 1, [([97], 0)]⟩)
  ∧ ∃ tok,
      GenerateChallenge ⟨0, 100, 0, []⟩ 3 (List.replicate 16 0) 7 =
        (Except.ok tok,
         { Engine.mk 0 100 0 [] with
             activeChallenges := mapStore [] tok 7 })
      ∧ tok = intToDecBytes 3 ++ 58 :: hexEncode (List.replicate 16 0)
      ∧ (hexEncode (List.replicate 16 0)).length = 32
      ∧ (∀ x ∈ hexEncode (List.replicate 16 0),
          (48 ≤ x ∧ x ≤ 57) ∨ (97 ≤ x ∧ x ≤ 102))
      ∧ (∀ x ∈ intToDecBytes 3, (48 ≤ x ∧ x ≤ 57) ∨ x = 45)
      ∧ mapLoad (mapStore [] tok 7) tok = some 7 :=
  ⟨(generateChallenge_spec ⟨0, 100, 1, [([97], 0)]⟩ 3 (List.replicate 16 0) 7).1
      (by decide) (by decide),
   (generateChallenge_spec ⟨0, 100, 0, []⟩ 3 (List.replicate 16 0) 7).2
      (by decide) (by decide) (by decide)⟩

/-! ## Frame effects -/

/-- Counterexample to C10 as stated: when the freshly generated token
collides with a token already outstanding (timestamp 5), `GenerateChallenge`
overwrites that entry's timestamp (to 7), so it does alter an existing
entry. -/
theorem generate_overwrite_counterexample :
    mapLoad (Engine.mk 0 100 0 [(48 :: 58 :: List.replicate 32 48, 5)]).activeChallenges
        (48 :: 58 :: List.replicate 32 48) = some 5
  ∧ (GenerateChallenge (Engine.mk 0 100 0 [(48 :: 58 :: List.replicate 32 48, 5)]) 0
        (List.replicate 16 0) 7).1 = Except.ok (48 :: 58 :: List.replicate 32 48)
  ∧ mapLoad (GenerateChallenge (Engine.mk 0 100 0 [(48 :: 58 :: List.replicate 32 48, 5)]) 0
        (List.replicate 16 0) 7).2.activeChallenges (48 :: 58 :: List.replicate 32 48) =
      some 7 := by
  refine ⟨by decide, by decide, by decide⟩

/-- C10 (amended): `VerifyProof` and `InvalidateChallenge` modify the
outstanding set only at their token argument; `GenerateChallenge` leaves
every entry other than the returned token unchanged (on a collision with an
outstanding token it overwrites that entry's timestamp) and leaves the set
unchanged on a capacity error. -/
theorem frame_effects (s : Engine) :
    (∀ (now : Int) (t n u : Str), u ≠ t →
      mapLoad (VerifyProof s now t n).2.activeChallenges u =
        mapLoad s.activeChallenges u)
  ∧ (∀ t u : Str, u ≠ t →
      mapLoad (InvalidateChallenge s t).activeChallenges u =
        mapLoad s.activeChallenges u)
  ∧ (∀ (unixSec : Int) (rb : List Nat) (now : Int) (tok : Str) (s2 : Engine),
      GenerateChallenge s unixSec rb now = (Except.ok tok, s2) →
      ∀ u : Str, u ≠ tok →
        mapLoad s2.activeChallenges u = mapLoad s.activeChallenges u)
  ∧ (∀ (unixSec : Int) (rb : List Nat) (now : Int) (s2 : Engine) (e : GenErr),
      GenerateChallenge s unixSec rb now = (Except.error e, s2) → s2 = s) := by
  refine ⟨?_, ?_, ?_, ?_⟩
  · intro now t n u hu
    unfold VerifyProof
    cases hm : mapLoad s.activeChallenges t with
    | none => rfl
    | some ts =>
      by_cases hexp : now - ts > s.challengeTTL
      · simp [hexp, mapLoad_delete_ne _ _ _ hu]
      · by_cases hh : hasLeadingZeros (sha256 (t ++ n)) s.difficulty
        · simp [hexp, hh, mapLoad_delete_ne _ _ _ hu]
        · simp [hexp, hh, mapLoad_delete_ne _ _ _ hu]
  · intro t u hu
    exact mapLoad_delete_ne _ _ _ hu
  · intro unixSec rb now tok s2 hg u hu
    simp only [GenerateChallenge] at hg
    by_cases hcap : 0 < s.maxActiveChallenges ∧
        (s.activeChallenges.length : Int) ≥ s.maxActiveChallenges
    · rw [if_pos hcap] at hg
      exact absurd (congrArg Prod.fst hg) (by simp)
    · rw [if_neg hcap] at hg
      have h2 := congrArg Prod.snd hg
      have h1 := Except.ok.inj (congrArg Prod.fst hg)
      simp only at h1 h2
      rw [← h2]
      exact mapLoad_store_ne _ _ _ _ (fun hc => hu (hc.trans h1))
  · intro unixSec rb now s2 e hg
    simp only [GenerateChallenge] at hg
    by_cases hcap : 0 < s.maxActiveChallenges ∧
        (s.activeChallenges.length : Int) ≥ s.maxActiveChallenges
    · rw [if_pos hcap] at hg
      exact (congrArg Prod.snd hg).symm
    · rw [if_neg hcap] at hg
      exact absurd (congrArg Prod.fst hg) (by simp)

/-- Witness for C10 (amended) at concrete engines and tokens. -/
theorem frame_effects_witness :
    mapLoad (VerifyProof (Engine.mk 0 100 0 [([97], 1)]) 0 [98] []).2.activeChallenges
        [97] = mapLoad (Engine.mk 0 100 0 [([97], 1)]).activeChallenges [97]
  ∧ mapLoad (InvalidateChallenge (Engine.mk 0 100 0 [([97], 1)]) [98]).activeChallenges
        [97] = mapLoad (Engine.mk 0 100 0 [([97], 1)]).activeChallenges [97]
  ∧ mapLoad (Engine.mk 0 100 0 (mapStore [([97], 1)] [48, 58] 7)).activeChallenges
        [97] = mapLoad (Engine.mk 0 100 0 [([97], 1)]).activeChallenges [97]
  ∧ (Engine.mk 0 100 1 [([97], 1)]) = (Engine.mk 0 100 1 [([97], 1)]) :=
  ⟨(frame_effects _).1 0 [98] [] [97] (by decide),
   (frame_effects _).2.1 [98] [97] (by decide),
   (frame_effects _).2.2.1 0 [] 7 [48, 58] _ (by decide) [97] (by decide),
   (frame_effects (Engine.mk 0 100 1 [([97], 1)])).2.2.2 0 [] 7 _ GenErr.capacity
     (by decide)⟩

/-! ## The connection handler -/

/-- C4: a proof whose token differs from the one issued on this connection
is rejected with the distinct Challenge mismatch error message, and
`VerifyProof` is never called. -/
theorem handler_token_mismatch (s : Engine) (unixSec : Int) (rb : List Nat)
    (genNow : Int) (pc pn : Str) (verifyNow : Int) (quote : Str)
    (ch : Str) (s1 : Engine)
    (hgen : GenerateChallenge s unixSec rb genNow = (Except.ok ch, s1))
    (hne : pc ≠ ch) :
    handleConnection s unixSec rb genNow true (some (pc, pn)) verifyNow quote =
      ([EngineCall.genCall, EngineCall.invalidateCall ch],
       [SrvMsg.challengeMsg ch s1.difficulty, SrvMsg.errorMsg "Challenge mismatch"],
       InvalidateChallenge s1 ch)
  ∧ ∀ c2 n2 : Str, EngineCall.verifyCall c2 n2 ∉
      (handleConnection s unixSec rb genNow true (some (pc, pn)) verifyNow quote).1 := by
  have h1 : handleConnection s unixSec rb genNow true (some (pc, pn)) verifyNow quote =
      ([EngineCall.genCall, EngineCall.invalidateCall ch],
       [SrvMsg.challengeMsg ch s1.difficulty, SrvMsg.errorMsg "Challenge mismatch"],
       InvalidateChallenge s1 ch) := by
    unfold handleConnection
    rw [hgen]
    simp only [Bool.true_eq_false, if_false, reduceCtorEq, if_neg,
      hne, ne_eq, not_false_eq_true, if_true, ite_true]
  refine ⟨h1, fun c2 n2 => ?_⟩
  rw [h1]
  simp

/-- Witness for C4: a connection issued token 0: receiving a proof for the
foreign token 1. -/
theorem handler_token_mismatch_witness :
    handleConnection (Engine.mk 1 100 0 []) 0 [] 0 true (some ([49], [])) 0 [113] =
      ([EngineCall.genCall, EngineCall.invalidateCall [48, 58]],
       [SrvMsg.challengeMsg [48, 58] 1, SrvMsg.errorMsg "Challenge mismatch"],
       InvalidateChallenge (Engine.mk 1 100 0 (mapStore [] [48, 58] 0)) [48, 58])
  ∧ ∀ c2 n2 : Str, EngineCall.verifyCall c2 n2 ∉
      (handleConnection (Engine.mk 1 100 0 []) 0 [] 0 true (some ([49], [])) 0 [113]).1 :=
  handler_token_mismatch (Engine.mk 1 100 0 []) 0 [] 0 [49] [] 0 [113] [48, 58]
    (Engine.mk 1 100 0 (mapStore [] [48, 58] 0)) (by decide) (by decide)

/-! ## Message framing -/

/-- C7: `WriteMessage` fails on a payload over 65536 bytes leaving the
stream untouched; `ReadMessage` rejects a decoded length of 0 or above
65536 after the 4-byte prefix, for every body suffix (so no body is ever
read). -/
theorem framing_size_bounds :
    (∀ stream jsonData : List Nat, jsonData.length > MaxMessageSize →
      WriteMessage stream jsonData = (some WriteErr.msgTooLarge, stream))
  ∧ (∀ pre body : List Nat, pre.length = 4 →
      (le32decode pre = 0 ∨ le32decode pre > MaxMessageSize) →
      ReadMessage (pre ++ body) = Except.error ReadErr.invalidLength) := by
  constructor
  · intro stream jsonData h
    unfold WriteMessage
    rw [if_pos h]
  · intro pre body hlen hbad
    unfold ReadMessage
    rw [if_neg (by simp [List.length_append, hlen])]
    have htake : (pre ++ body).take 4 = pre := by
      rw [← hlen]
      exact List.take_left pre body
    rw [htake, if_pos hbad]

/-- Witness for C7: a 65537-byte payload and a zero length prefix. -/
theorem framing_size_bounds_witness :
    WriteMessage [] (List.replicate 65537 0) = (some WriteErr.msgTooLarge, [])
  ∧ ReadMessage ([0, 0, 0, 0] ++ [7]) = Except.error ReadErr.invalidLength :=
  ⟨framing_size_bounds.1 [] (List.replicate 65537 0)
      (by rw [List.length_replicate]; norm_num [MaxMessageSize]),
   framing_size_bounds.2 [0, 0, 0, 0] [7] (by decide) (by decide)⟩

end Pow
